import Mathlib

/-!
Verification of the two core components of the lennyhub-rag repository:
the bounded-concurrency ingestion scheduler of
src/build_transcript_rag_parallel.py and the retrieval provenance
resolver of src/query_with_sources.py.  Every definition below is a
shallow embedding of a concrete piece of that source code; spec-side
characterisations used for refinement statements are clearly marked.
-/

namespace LennyRag

/-! ## Ingestion scheduler (src/build_transcript_rag_parallel.py)

The scheduler launches one asyncio task per document to process, gated
by an asyncio.Semaphore of width C, and each task increments a shared
counter under a lock when its insert succeeds.  We model a run as a
state machine: each task index is pending (launched but not yet holding
a semaphore slot), running (inside the async-with semaphore block), or
done.  The function outcome assigns each task the success value of its
insert call; a finishing task increments the shared counter exactly
when its outcome is success, mirroring lines 80-90 of the source.
-/

structure SchedState where
  pending : List Nat
  running : List Nat
  done : List Nat
  counter : Nat
deriving Repr, DecidableEq

/-- One scheduler transition: a pending task acquires a free semaphore
slot (start, guarded by the width C, modelling async-with semaphore),
or a running task completes (finish), incrementing the shared counter
exactly when its insert outcome is success. -/
inductive Step (C : Nat) (outcome : Nat → Bool) : SchedState → SchedState → Prop where
  | start (s : SchedState) (i : Nat) (hmem : i ∈ s.pending)
      (hlt : s.running.length < C) :
      Step C outcome s ⟨s.pending.erase i, i :: s.running, s.done, s.counter⟩
  | finish (s : SchedState) (i : Nat) (hmem : i ∈ s.running) :
      Step C outcome s
        ⟨s.pending, s.running.erase i, i :: s.done,
          if outcome i then s.counter + 1 else s.counter⟩

/-- Initial state of a batch of n launched tasks: all pending, shared
counter zero (processed_count starts at 0 in the source). -/
def initState (n : Nat) : SchedState := ⟨List.range n, [], [], 0⟩

/-- States reachable by interleaving task starts and finishes in any
order, for any pattern of insert delays. -/
def Reachable (n C : Nat) (outcome : Nat → Bool) (s : SchedState) : Prop :=
  Relation.ReflTransGen (Step C outcome) (initState n) s

/-- Scheduler invariant: tasks are conserved (the three lists form a
permutation of the launched indices), the shared counter counts exactly
the successfully finished tasks, and at most C tasks hold a slot. -/
def SchedInv (n C : Nat) (outcome : Nat → Bool) (s : SchedState) : Prop :=
  (s.pending ++ s.running ++ s.done).Perm (List.range n) ∧
  s.counter = (s.done.filter (fun i => outcome i)).length ∧
  s.running.length ≤ C

/-- Outcome function used by the concrete witness runs. -/
def wOutcome : Nat → Bool := fun _ => true

/-- Concrete mid-run state of a one-task batch: the task holds a slot. -/
def wMidState : SchedState := ⟨[], [0], [], 0⟩

/-- Concrete final state of a one-task batch whose insert succeeded. -/
def wFinalState : SchedState := ⟨[], [], [0], 1⟩

/-! ## Task boundary and aggregation (lines 53-90 and 206-213 of
src/build_transcript_rag_parallel.py)

process_single_transcript wraps the whole task body (file read plus
insert_content_list call) in a try block; an exception is caught,
printed with the original error text, and turned into the return value
(False, name); success returns (True, name).  We model the body as an
Except value and return the outcome tuple together with the printed
line.  The driver counts successful results and sets
failed = total_to_process - successful. -/

/-- Embedding of process_single_transcript: given the result of the
task body (file read + insert), the task name, and the progress numbers
printed on success, produce the returned (success, name) outcome and
the printed line.  The error branch prints the original error text and
returns a failed outcome; no exception escapes. -/
def process_single_transcript (body : Except String Unit) (name : String)
    (progressAfter total : Nat) : (Bool × String) × String :=
  match body with
  | Except.ok _ =>
      ((true, name),
        "[" ++ toString progressAfter ++ "/" ++ toString total ++ "] ✓ " ++ name)
  | Except.error e =>
      ((false, name), "[ERROR] ✗ " ++ name ++ ": " ++ e)

/-- Outcomes of a batch of tasks, each task given by its file name and
the result of its body. -/
def batchOutcomes (tasks : List (String × Except String Unit)) :
    List (Bool × String) :=
  tasks.map (fun t => (process_single_transcript t.2 t.1 0 0).1)

/-- Line 209 of the source: successful counts the results that are
success tuples. -/
def successfulCount (results : List (Bool × String)) : Nat :=
  (results.filter (fun r => r.1)).length

/-- Line 210 of the source: failed = total_to_process - successful. -/
def failedCount (total : Nat) (results : List (Bool × String)) : Nat :=
  total - successfulCount results

/-- A concrete all-failing batch used as witness input. -/
def wFailTasks : List (String × Except String Unit) :=
  [("ep1.txt", Except.error "quota exceeded"), ("ep2.txt", Except.error "timeout")]

/-- Decidable form of: the task body raised. -/
def bodyFailed : Except String Unit → Bool
  | Except.error _ => true
  | Except.ok _ => false

/-! ## Document selection (lines 40-50 and 172-181 of
src/build_transcript_rag_parallel.py)

Files are modelled by their stem; the doc_id of a file is the string
transcript- followed by the stem.  The loop of lines 172-176 keeps the
files whose doc_id is not in the already-processed set, and lines
179-181 truncate the survivors to MAX_TRANSCRIPTS entries when they
exceed that bound. -/

def docIdOf (stem : String) : String := "transcript-" ++ stem

/-- The filtering loop of lines 172-176: keep input order, drop files
whose doc_id is already processed. -/
def filterUnprocessed (already : List String) : List String → List String
  | [] => []
  | f :: fs =>
      if already.contains (docIdOf f) then filterUnprocessed already fs
      else f :: filterUnprocessed already fs

/-- Lines 179-181: truncate to the first maxN files only when the list
is longer than maxN. -/
def limitTranscripts (maxN : Nat) (files : List String) : List String :=
  if files.length > maxN then files.take maxN else files

/-- The scheduled batch: filter already-processed doc ids, then apply
the batch-size limit. -/
def toProcess (already : List String) (maxN : Nat) (allFiles : List String) :
    List String :=
  limitTranscripts maxN (filterUnprocessed already allFiles)

/-! ## Processed-Set Loader (lines 40-50 of
src/build_transcript_rag_parallel.py)

The persisted status table kv_store_doc_status.json maps doc_id to a
status record.  The loader returns the key set of the parsed table; an
absent file or a failed parse yields the empty set.  Note that the
status recorded inside each record is never inspected. -/

structure StatusRecord where
  status : String
  chunks_list : Option (List String) := none
  file_path : Option String := none
deriving Repr, DecidableEq

/-- Embedding of get_already_processed_docs: the argument models the
doc-status file (absent, unparseable, or parsed as an ordered table).
The source returns set(doc_status.keys()); we keep the keys as a list. -/
def get_already_processed_docs
    (doc_status_file : Option (Except String (List (String × StatusRecord)))) :
    List String :=
  match doc_status_file with
  | none => []
  | some (Except.error _) => []
  | some (Except.ok tbl) => tbl.map Prod.fst

/-- Spec-side reading of the Processed-Set Loader claim: only the
identifiers whose record carries the completed status (the string
processed in the persisted table) would be returned. -/
def completedDocIds (tbl : List (String × StatusRecord)) : List String :=
  (tbl.filter (fun p => p.2.status == "processed")).map Prod.fst

/-- A status table whose single record is marked failed, used to
separate the loader from its claimed behaviour. -/
def failedOnlyTable : List (String × StatusRecord) :=
  [("transcript-ep1", { status := "failed" })]

/-! ## Provenance resolver (src/query_with_sources.py)

Side-table records.  A chunk entry models a JSON value that is a dict
with a string content field by some content, and anything else by
none (the source tests isinstance(chunk_data, dict) and the presence
of the content key).  Document records likewise carry optional fields
for keys the source reads with membership tests or dict.get. -/

structure FullDocRecord where
  chunks : Option (List String) := none
  file_name : Option String := none
deriving Repr, DecidableEq

/-- The metadata dictionary built by load_chunk_metadata; each key is
present exactly when its side-table file existed. -/
structure Metadata where
  chunks : Option (List (String × Option String)) := none
  doc_status : Option (List (String × Option StatusRecord)) := none
  full_docs : Option (List (String × Option FullDocRecord)) := none
deriving Repr, DecidableEq

/-- The three side-table files as seen by load_chunk_metadata: each is
absent, present but unparseable (json.load raises), or parsed. -/
structure FileSys where
  text_chunks_file : Option (Except String (List (String × Option String))) := none
  doc_status_file : Option (Except String (List (String × Option StatusRecord))) := none
  full_docs_file : Option (Except String (List (String × Option FullDocRecord))) := none

/-- One file probe of load_chunk_metadata: an absent file is skipped
(its key stays out of the metadata dict), a parsed file hands its table
to the continuation, and a failing json.load propagates — the source
has no try block around the three reads. -/
def loadStep {α : Type} (file : Option (Except String α))
    (k : Option α → Except String Metadata) : Except String Metadata :=
  match file with
  | none => k none
  | some (Except.error e) => Except.error e
  | some (Except.ok t) => k (some t)

/-- Embedding of load_chunk_metadata (lines 26-51): probe the three
side-table files in source order and build the metadata dict. -/
def load_chunk_metadata (fs : FileSys) : Except String Metadata :=
  loadStep fs.text_chunks_file (fun c =>
    loadStep fs.doc_status_file (fun d =>
      loadStep fs.full_docs_file (fun f =>
        Except.ok { chunks := c, doc_status := d, full_docs := f })))

/-- Truth of a present side-table file: absent or parsed, never a
parse failure. -/
def fileOk {α : Type} : Option (Except String α) → Prop
  | none => True
  | some (Except.ok _) => True
  | some (Except.error _) => False

/-- Python substring containment: needle in haystack. -/
def substrOf (needle haystack : String) : Bool :=
  decide (List.IsInfix needle.data haystack.data)

/-- Python str.strip whitespace set (ASCII part). -/
def isWS (c : Char) : Bool :=
  c == ' ' || c == '\t' || c == '\n' || c == '\r' || c == '\x0b' || c == '\x0c'

/-- Python str.strip(): drop leading and trailing whitespace. -/
def pyStrip (s : String) : String :=
  String.mk (((s.data.dropWhile isWS).reverse.dropWhile isWS).reverse)

/-- Python context.split on the fixed five-dash delimiter of line 59:
leftmost non-overlapping occurrences, empty pieces kept. -/
def splitCtx (acc : List Char) : List Char → List (List Char)
  | '-' :: '-' :: '-' :: '-' :: '-' :: rest => acc.reverse :: splitCtx [] rest
  | c :: rest => splitCtx (c :: acc) rest
  | [] => [acc.reverse]

def splitContext (context : String) : List String :=
  (splitCtx [] context.data).map String.mk

/-- Split on a single character, Python str.split(sep) semantics. -/
def splitOnChar (sep : Char) : List Char → List (List Char)
  | [] => [[]]
  | c :: rest =>
      if c == sep then [] :: splitOnChar sep rest
      else
        match splitOnChar sep rest with
        | [] => [[c]]
        | t :: ts => (c :: t) :: ts

/-- Python Path(p).stem: the final path component without its last
suffix, where a suffix requires the last dot to be neither the first
nor the last character of the component. -/
def lastDotIdx (cs : List Char) : Option Nat :=
  match cs.reverse.findIdx? (fun c => c == '.') with
  | some j => some (cs.length - 1 - j)
  | none => none

def pathStem (p : String) : String :=
  let name := (splitOnChar '/' p.data).getLastD []
  match lastDotIdx name with
  | some i =>
      if 0 < i ∧ i + 1 < name.length then String.mk (name.take i)
      else String.mk name
  | none => String.mk name

/-- One resolved passage: the section content, the resolved source (or
the sentinel Unknown) and the matched chunk id, as built at lines
66-70 of the source. -/
structure ChunkInfo where
  content : String
  source : String
  chunk_id : Option String
deriving Repr, DecidableEq

/-- Loop of lines 74-79: scan the chunk table in iteration order and
return the first entry that is a dict with a content field whose
content is contained in the section or contains the section. -/
def findMatch (sec : String) :
    List (String × Option String) → Option (String × Option String)
  | [] => none
  | (cid, cdata) :: rest =>
      match cdata with
      | some cc =>
          if substrOf cc sec || substrOf sec cc then some (cid, some cc)
          else findMatch sec rest
      | none => findMatch sec rest

/-- Spec-side predicate: the chunk entry is a dict with content and
satisfies bidirectional containment with the section. -/
def containsMatch (sec : String) (p : String × Option String) : Bool :=
  match p.2 with
  | some cc => substrOf cc sec || substrOf sec cc
  | none => false

/-- Loop of lines 83-87: first full_docs entry that is a dict whose
chunks field contains the chunk id; its display name is file_name with
fallback to the doc_id. -/
def scanFullDocs (cid : String) :
    List (String × Option FullDocRecord) → Option String
  | [] => none
  | (docId, od) :: rest =>
      match od with
      | some dd =>
          match dd.chunks with
          | some cs =>
              if cid ∈ cs then some (dd.file_name.getD docId)
              else scanFullDocs cid rest
          | none => scanFullDocs cid rest
      | none => scanFullDocs cid rest

/-- Display name of a doc_status record at lines 94-95: the stem of
the recorded file path when that path is non-empty, else the doc_id. -/
def statusDisplay (docId : String) (dd : StatusRecord) : String :=
  let fp := dd.file_path.getD ""
  if fp = "" then docId else pathStem fp

/-- Loop of lines 91-96: first doc_status entry that is a dict with a
chunks_list containing the chunk id. -/
def scanDocStatus (cid : String) :
    List (String × Option StatusRecord) → Option String
  | [] => none
  | (docId, od) :: rest =>
      match od with
      | some dd =>
          match dd.chunks_list with
          | some cs =>
              if cid ∈ cs then some (statusDisplay docId dd)
              else scanDocStatus cid rest
          | none => scanDocStatus cid rest
      | none => scanDocStatus cid rest

/-- Spec-side Boolean forms of the two scans, used to state first-match
properties with List.find?. -/
def fullDocHasChunk (cid : String) (p : String × Option FullDocRecord) : Bool :=
  match p.2 with
  | some dd =>
      match dd.chunks with
      | some cs => decide (cid ∈ cs)
      | none => false
  | none => false

def fullDocDisplayName (p : String × Option FullDocRecord) : String :=
  match p.2 with
  | some dd => dd.file_name.getD p.1
  | none => p.1

def statusDocHasChunk (cid : String) (p : String × Option StatusRecord) : Bool :=
  match p.2 with
  | some dd =>
      match dd.chunks_list with
      | some cs => decide (cid ∈ cs)
      | none => false
  | none => false

def statusDocDisplayName (p : String × Option StatusRecord) : String :=
  match p.2 with
  | some dd => statusDisplay p.1 dd
  | none => p.1

/-- Lines 81-96: source starts as Unknown; a full_docs match (when the
table is present) overwrites it; the doc_status table is consulted
exactly when the source is still the string Unknown afterwards. -/
def resolveSource (cid : String) (meta : Metadata) : String :=
  let s1 :=
    match meta.full_docs with
    | some fd => (scanFullDocs cid fd).getD "Unknown"
    | none => "Unknown"
  if s1 = "Unknown" then
    match meta.doc_status with
    | some ds => (scanDocStatus cid ds).getD "Unknown"
    | none => "Unknown"
  else s1

/-- Attribution of one surviving section (lines 66-97): Unknown/null
when the chunk table is absent or no chunk matches; otherwise the
first matching chunk id and its resolved source. -/
def attributeSection (sec : String) (meta : Metadata) : ChunkInfo :=
  match meta.chunks with
  | none => ⟨sec, "Unknown", none⟩
  | some ct =>
      match findMatch sec ct with
      | none => ⟨sec, "Unknown", none⟩
      | some (cid, _) => ⟨sec, resolveSource cid meta, some cid⟩

/-- The survivor filter of lines 61-63 applied to a stripped section. -/
def keepSection (t : String) : Bool :=
  decide (¬(t = "" ∨ t.length < 20))

/-- The section loop of extract_chunk_sources: strip each raw section,
skip empty or short ones, attribute the rest in order. -/
def processSections (meta : Metadata) : List String → List ChunkInfo
  | [] => []
  | s :: rest =>
      if pyStrip s = "" ∨ (pyStrip s).length < 20 then processSections meta rest
      else attributeSection (pyStrip s) meta :: processSections meta rest

/-- Embedding of extract_chunk_sources (lines 54-101): split the raw
context on the delimiter and process the sections. -/
def extract_chunk_sources (context : String) (meta : Metadata) :
    List ChunkInfo :=
  processSections meta (splitContext context)

/-- Bounded form of the orphan-chunk hypothesis: no document of the
full_docs table (empty when the table is absent) records the chunk. -/
def noFullDocContains (cid : String) (meta : Metadata) : Prop :=
  ∀ p ∈ meta.full_docs.getD [], fullDocHasChunk cid p = false

/-- No document of the doc_status table records the chunk. -/
def noStatusDocContains (cid : String) (meta : Metadata) : Prop :=
  ∀ p ∈ meta.doc_status.getD [], statusDocHasChunk cid p = false

/-! ## Grouping by source (lines 169-174 of src/query_with_sources.py)

sources_map is a Python dict built by appending each passage to the
list at its source key, creating the key at the end of the dict on
first occurrence.  We model the dict as an ordered association list. -/

def addToGroups :
    List (String × List ChunkInfo) → ChunkInfo → List (String × List ChunkInfo)
  | [], c => [(c.source, [c])]
  | (s, l) :: rest, c =>
      if s = c.source then (s, l ++ [c]) :: rest
      else (s, l) :: addToGroups rest c

def groupBySource (cs : List ChunkInfo) : List (String × List ChunkInfo) :=
  cs.foldl addToGroups []

/-- First group under a key, matching dict lookup on the model. -/
def findGroup : List (String × List ChunkInfo) → String → List ChunkInfo
  | [], _ => []
  | (t, l) :: rest, s => if t = s then l else findGroup rest s

/-- Spec-side first-occurrence order of a list of sources. -/
def firstOccurAux (seen : List String) : List String → List String
  | [] => []
  | s :: rest =>
      if s ∈ seen then firstOccurAux seen rest
      else s :: firstOccurAux (s :: seen) rest

def firstOccurrences (l : List String) : List String := firstOccurAux [] l

/-! ## Concrete inputs used by witnesses and counterexamples -/

/-- A 26-character section with no whitespace and no dashes. -/
def secW : String := "abcdefghijklmnopqrstuvwxyz"

/-- Chunk table with a single chunk whose stored content equals secW. -/
def ctW : List (String × Option String) := [("c1", some secW)]

/-- Metadata with only the chunk table present. -/
def metaW3 : Metadata := { chunks := some ctW }

/-- Counterexample metadata for document-index priority: the full_docs
document owning c1 has the display name Unknown, and a doc_status
document also owns c1 with file path dir/other.txt. -/
def fdrCE : FullDocRecord := { chunks := some ["c1"], file_name := some "Unknown" }

def metaCE : Metadata :=
  { chunks := some ctW,
    doc_status := some [("d2", some
      { status := "processed", chunks_list := some ["c1"],
        file_path := some "dir/other.txt" })],
    full_docs := some [("d1", some fdrCE)] }

/-- Witness full_docs table for the amended source-resolution claim:
the document owning c1 has an ordinary display name. -/
def fdW6 : List (String × Option FullDocRecord) :=
  [("dA", some { chunks := some ["c1"], file_name := some "epA.txt" })]

def metaW6 : Metadata :=
  { chunks := some ctW, doc_status := some [], full_docs := some fdW6 }

/-- Witness metadata for the orphan-chunk claim: the chunk table has a
chunk c9 recorded by no full_docs and no doc_status document. -/
def metaO : Metadata :=
  { chunks := some [("c9", some secW)],
    doc_status := some [("dY", some
      { status := "processed", chunks_list := some ["other-chunk"],
        file_path := some "dY.txt" })],
    full_docs := some [("dX", some { chunks := some ["other-chunk"], file_name := some "X.txt" })] }

/-- A file system whose chunk side-table file exists but does not
parse. -/
def malformedFS : FileSys :=
  { text_chunks_file := some (Except.error "Expecting value: line 1 column 1") }

/-- All three side-table files absent. -/
def allAbsentFS : FileSys := {}

/-- Passages with sources A, B, A in retrieval order. -/
def psA1 : ChunkInfo := ⟨"first passage from source a ....", "A", none⟩

def psB1 : ChunkInfo := ⟨"one passage from source b ......", "B", none⟩

def psA2 : ChunkInfo := ⟨"second passage from source a ...", "A", none⟩

/-- The passage produced by the resolver on secW under metaW3. -/
def ciW3 : ChunkInfo := ⟨secW, "Unknown", some "c1"⟩

/-- The chunk table of metaO. -/
def ctO : List (String × Option String) := [("c9", some secW)]

/-- The passage produced by the resolver on secW under metaO. -/
def ciO : ChunkInfo := ⟨secW, "Unknown", some "c9"⟩

/-- Concrete already-processed set and file list for the scheduling
filter witness. -/
def wAlready : List String := ["transcript-ep1"]

def wAllFiles : List String := ["ep1", "ep2", "ep3", "ep4"]

/-! ## Helper lemmas -/

theorem filter_length_split (p : Nat → Bool) (l : List Nat) :
    (l.filter p).length + (l.filter (fun i => !p i)).length = l.length := by
  induction l with
  | nil => simp
  | cons a l ih =>
    by_cases h : p a = true
    · simp [List.filter_cons, h]
      omega
    · have h2 : p a = false := by
        cases hpa : p a
        · rfl
        · exact absurd hpa h
      simp [List.filter_cons, h2]
      omega

theorem schedInv_init (n C : Nat) (outcome : Nat → Bool) :
    SchedInv n C outcome (initState n) := by
  refine ⟨?_, rfl, by simp [initState]⟩
  simp only [initState, List.append_nil, List.nil_append]
  exact List.Perm.refl _

theorem schedInv_step (n C : Nat) (outcome : Nat → Bool) (s t : SchedState)
    (hinv : SchedInv n C outcome s) (hstep : Step C outcome s t) :
    SchedInv n C outcome t := by
  obtain ⟨hperm, hcnt, hlen⟩ := hinv
  cases hstep with
  | start i hmem hlt =>
    refine ⟨?_, hcnt, by simpa using hlt⟩
    have h1 : s.pending.Perm (i :: s.pending.erase i) := List.perm_cons_erase hmem
    have h2 : (s.pending.erase i ++ (i :: s.running) ++ s.done).Perm
        (s.pending ++ s.running ++ s.done) := by
      have h3 : (s.pending.erase i ++ (i :: (s.running ++ s.done))).Perm
          (i :: (s.pending.erase i ++ (s.running ++ s.done))) := List.perm_middle
      have h4 : (i :: (s.pending.erase i ++ (s.running ++ s.done))).Perm
          (s.pending ++ (s.running ++ s.done)) := by
        have := (h1.symm).append_right (s.running ++ s.done)
        simpa using this
      simpa [List.append_assoc] using h3.trans h4
    exact h2.trans hperm
  | finish i hmem =>
    refine ⟨?_, ?_, ?_⟩
    · have h1 : s.running.Perm (i :: s.running.erase i) := List.perm_cons_erase hmem
      have h3 : (s.running.erase i ++ (i :: s.done)).Perm
          (i :: (s.running.erase i ++ s.done)) := List.perm_middle
      have h4 : (i :: (s.running.erase i ++ s.done)).Perm (s.running ++ s.done) := by
        have := (h1.symm).append_right s.done
        simpa using this
      have h5 : (s.pending ++ (s.running.erase i ++ (i :: s.done))).Perm
          (s.pending ++ (s.running ++ s.done)) :=
        ((h3.trans h4).append_left s.pending)
      have h6 : (s.pending ++ s.running.erase i ++ (i :: s.done)).Perm
          (s.pending ++ s.running ++ s.done) := by
        simpa [List.append_assoc] using h5
      exact h6.trans hperm
    · by_cases h : outcome i = true
      · simp [List.filter_cons, h, hcnt]
      · have h2 : outcome i = false := by
          cases hoi : outcome i
          · rfl
          · exact absurd hoi h
        simp [List.filter_cons, h2, hcnt]
    · calc (s.running.erase i).length ≤ s.running.length :=
            (List.erase_sublist i s.running).length_le
        _ ≤ C := hlen

theorem schedInv_reachable (n C : Nat) (outcome : Nat → Bool) (s : SchedState)
    (h : Reachable n C outcome s) : SchedInv n C outcome s := by
  induction h with
  | refl => exact schedInv_init n C outcome
  | tail h1 h2 ih => exact schedInv_step n C outcome _ _ ih h2

theorem reach_mid : Reachable 1 1 wOutcome wMidState := by
  have h0 : (wMidState : SchedState) =
      ⟨(initState 1).pending.erase 0, 0 :: (initState 1).running,
        (initState 1).done, (initState 1).counter⟩ := by decide
  have hstep : Step 1 wOutcome (initState 1) wMidState := by
    rw [h0]
    exact Step.start (initState 1) 0 (by decide) (by decide)
  exact Relation.ReflTransGen.tail Relation.ReflTransGen.refl hstep

theorem reach_final : Reachable 1 1 wOutcome wFinalState := by
  have h0 : (wFinalState : SchedState) =
      ⟨wMidState.pending, wMidState.running.erase 0, 0 :: wMidState.done,
        if wOutcome 0 then wMidState.counter + 1 else wMidState.counter⟩ := by decide
  have hstep : Step 1 wOutcome wMidState wFinalState := by
    rw [h0]
    exact Step.finish wMidState 0 (by decide)
  exact Relation.ReflTransGen.tail reach_mid hstep

theorem attributeSection_content (sec : String) (meta : Metadata) :
    (attributeSection sec meta).content = sec := by
  rcases hc : meta.chunks with _ | ct
  · simp [attributeSection, hc]
  · rcases hm : findMatch sec ct with _ | ⟨cid, c⟩ <;> simp [attributeSection, hc, hm]

theorem mem_processSections (meta : Metadata) (l : List String) (ci : ChunkInfo)
    (h : ci ∈ processSections meta l) : ci = attributeSection ci.content meta := by
  induction l with
  | nil => simp [processSections] at h
  | cons s rest ih =>
    by_cases hs : pyStrip s = "" ∨ (pyStrip s).length < 20
    · rw [processSections, if_pos hs] at h
      exact ih h
    · rw [processSections, if_neg hs] at h
      rcases List.mem_cons.mp h with h1 | h1
      · rw [h1, attributeSection_content]
      · exact ih h1

theorem mem_extract (context : String) (meta : Metadata) (ci : ChunkInfo)
    (h : ci ∈ extract_chunk_sources context meta) :
    ci = attributeSection ci.content meta :=
  mem_processSections meta (splitContext context) ci h

theorem findMatch_eq_find (sec : String) (ct : List (String × Option String)) :
    findMatch sec ct = ct.find? (containsMatch sec) := by
  induction ct with
  | nil => rfl
  | cons p rest ih =>
    rcases p with ⟨cid, cdata⟩
    cases cdata with
    | none => simpa [findMatch, containsMatch] using ih
    | some cc =>
      by_cases h : (substrOf cc sec || substrOf sec cc) = true
      · simp [findMatch, containsMatch, h]
      · simp [findMatch, containsMatch, h, ih]

theorem scanFullDocs_eq_find (cid : String)
    (fd : List (String × Option FullDocRecord)) :
    scanFullDocs cid fd = (fd.find? (fullDocHasChunk cid)).map fullDocDisplayName := by
  induction fd with
  | nil => rfl
  | cons p rest ih =>
    rcases p with ⟨docId, od⟩
    cases od with
    | none => simpa [scanFullDocs, fullDocHasChunk] using ih
    | some dd =>
      rcases hc : dd.chunks with _ | cs
      · simpa [scanFullDocs, fullDocHasChunk, hc] using ih
      · by_cases h : cid ∈ cs
        · simp [scanFullDocs, fullDocHasChunk, fullDocDisplayName, hc, h]
        · simp [scanFullDocs, fullDocHasChunk, hc, h, ih]

theorem scanDocStatus_eq_find (cid : String)
    (ds : List (String × Option StatusRecord)) :
    scanDocStatus cid ds =
      (ds.find? (statusDocHasChunk cid)).map statusDocDisplayName := by
  induction ds with
  | nil => rfl
  | cons p rest ih =>
    rcases p with ⟨docId, od⟩
    cases od with
    | none => simpa [scanDocStatus, statusDocHasChunk] using ih
    | some dd =>
      rcases hc : dd.chunks_list with _ | cs
      · simpa [scanDocStatus, statusDocHasChunk, hc] using ih
      · by_cases h : cid ∈ cs
        · simp [scanDocStatus, statusDocHasChunk, statusDocDisplayName, hc, h]
        · simp [scanDocStatus, statusDocHasChunk, hc, h, ih]

theorem filterUnprocessed_eq (already : List String) (l : List String) :
    filterUnprocessed already l =
      l.filter (fun f => !already.contains (docIdOf f)) := by
  induction l with
  | nil => rfl
  | cons f fs ih =>
    by_cases hm : docIdOf f ∈ already
    · simp [filterUnprocessed, List.filter_cons, hm, ih]
    · simp [filterUnprocessed, List.filter_cons, hm, ih]

theorem limitTranscripts_eq (maxN : Nat) (files : List String) :
    limitTranscripts maxN files = files.take maxN := by
  unfold limitTranscripts
  by_cases h : files.length > maxN
  · simp [h]
  · simp [h, List.take_of_length_le (Nat.le_of_not_lt h)]

theorem addToGroups_fst (acc : List (String × List ChunkInfo)) (c : ChunkInfo) :
    (addToGroups acc c).map Prod.fst =
      if c.source ∈ acc.map Prod.fst then acc.map Prod.fst
      else acc.map Prod.fst ++ [c.source] := by
  induction acc with
  | nil => simp [addToGroups]
  | cons p rest ih =>
    rcases p with ⟨s, l⟩
    by_cases h : s = c.source
    · simp [addToGroups, h]
    · have h2 : ¬c.source = s := fun hx => h hx.symm
      by_cases hm : c.source ∈ rest.map Prod.fst
      · simp [addToGroups, h, ih, hm, h2]
      · simp [addToGroups, h, ih, hm, h2]

theorem firstOccurAux_congr (l : List String) (s1 s2 : List String)
    (h : ∀ x, x ∈ s1 ↔ x ∈ s2) : firstOccurAux s1 l = firstOccurAux s2 l := by
  induction l generalizing s1 s2 with
  | nil => rfl
  | cons a rest ih =>
    by_cases ha : a ∈ s1
    · simp [firstOccurAux, ha, (h a).mp ha, ih s1 s2 h]
    · have ha2 : a ∉ s2 := fun hx => ha ((h a).mpr hx)
      have hcons : ∀ x, x ∈ a :: s1 ↔ x ∈ a :: s2 := by
        intro x
        simp only [List.mem_cons]
        constructor
        · rintro (hx | hx)
          · exact Or.inl hx
          · exact Or.inr ((h x).mp hx)
        · rintro (hx | hx)
          · exact Or.inl hx
          · exact Or.inr ((h x).mpr hx)
      simp [firstOccurAux, ha, ha2, ih (a :: s1) (a :: s2) hcons]

theorem groupKeys_fold (ps : List ChunkInfo) (acc : List (String × List ChunkInfo)) :
    (ps.foldl addToGroups acc).map Prod.fst =
      acc.map Prod.fst ++
        firstOccurAux (acc.map Prod.fst) (ps.map (fun c => c.source)) := by
  induction ps generalizing acc with
  | nil => simp [firstOccurAux]
  | cons c ps ih =>
    simp only [List.foldl_cons, List.map_cons]
    rw [ih (addToGroups acc c), addToGroups_fst]
    by_cases hc : c.source ∈ acc.map Prod.fst
    · simp [hc, firstOccurAux]
    · have hiff : ∀ x, x ∈ acc.map Prod.fst ++ [c.source] ↔ x ∈ c.source :: acc.map Prod.fst := by
        intro x
        simp [List.mem_append, List.mem_cons, or_comm]
      rw [if_neg hc]
      rw [firstOccurAux_congr (ps.map (fun c => c.source)) _ _ hiff]
      simp [firstOccurAux, hc]

theorem findGroup_addToGroups (acc : List (String × List ChunkInfo))
    (c : ChunkInfo) (s : String) :
    findGroup (addToGroups acc c) s =
      if c.source = s then findGroup acc s ++ [c] else findGroup acc s := by
  induction acc with
  | nil =>
    by_cases h : c.source = s
    · simp [addToGroups, findGroup, h]
    · simp [addToGroups, findGroup, h]
  | cons p rest ih =>
    rcases p with ⟨t, l⟩
    by_cases ht : t = c.source
    · by_cases hs : t = s
      · have hcs : c.source = s := ht ▸ hs
        simp [addToGroups, findGroup, ht, hs, hcs]
      · have hcs : ¬c.source = s := fun hx => hs (ht.trans hx)
        simp [addToGroups, findGroup, ht, hs, hcs]
    · by_cases hs : t = s
      · have h2 : ¬c.source = s := fun hx => ht (hs.trans hx.symm)
        have h3 : ¬s = c.source := fun hx => ht (hs.trans hx)
        simp [addToGroups, findGroup, ht, hs, h2, h3]
      · simp [addToGroups, findGroup, ht, hs, ih]

theorem findGroup_fold (ps : List ChunkInfo) (acc : List (String × List ChunkInfo))
    (s : String) :
    findGroup (ps.foldl addToGroups acc) s =
      findGroup acc s ++ ps.filter (fun c => c.source == s) := by
  induction ps generalizing acc with
  | nil => simp
  | cons c ps ih =>
    simp only [List.foldl_cons]
    rw [ih (addToGroups acc c), findGroup_addToGroups]
    by_cases h : c.source = s
    · simp [List.filter_cons, h]
    · have h2 : (c.source == s) = false := by
        exact beq_eq_false_iff_ne.mpr h
      simp [List.filter_cons, h, h2]

theorem attributeSection_eq (sec : String) (meta : Metadata)
    (ct : List (String × Option String)) (h : meta.chunks = some ct) :
    attributeSection sec meta =
      match ct.find? (containsMatch sec) with
      | none => ⟨sec, "Unknown", none⟩
      | some (cid, _) => ⟨sec, resolveSource cid meta, some cid⟩ := by
  simp only [attributeSection, h, findMatch_eq_find]

theorem resolveSource_unknown (cid : String) (meta : Metadata)
    (h1 : noFullDocContains cid meta) (h2 : noStatusDocContains cid meta) :
    resolveSource cid meta = "Unknown" := by
  have hfd : (match meta.full_docs with
      | some fd => (scanFullDocs cid fd).getD "Unknown"
      | none => "Unknown") = "Unknown" := by
    rcases hfull : meta.full_docs with _ | fd
    · rfl
    · have h1f : ∀ p ∈ fd, fullDocHasChunk cid p = false := by
        rw [noFullDocContains, hfull] at h1
        simpa using h1
      have hnone : fd.find? (fullDocHasChunk cid) = none := by
        rw [List.find?_eq_none]
        intro p hp
        simp [h1f p hp]
      show (scanFullDocs cid fd).getD "Unknown" = "Unknown"
      rw [scanFullDocs_eq_find, hnone]
      rfl
  have hds : (match meta.doc_status with
      | some ds => (scanDocStatus cid ds).getD "Unknown"
      | none => "Unknown") = "Unknown" := by
    rcases hstat : meta.doc_status with _ | ds
    · rfl
    · have h2s : ∀ p ∈ ds, statusDocHasChunk cid p = false := by
        rw [noStatusDocContains, hstat] at h2
        simpa using h2
      have hnone : ds.find? (statusDocHasChunk cid) = none := by
        rw [List.find?_eq_none]
        intro p hp
        simp [h2s p hp]
      show (scanDocStatus cid ds).getD "Unknown" = "Unknown"
      rw [scanDocStatus_eq_find, hnone]
      rfl
  rw [resolveSource]
  rw [hfd]
  simpa using hds

theorem load_chunks_none (fs : FileSys) (m : Metadata)
    (h1 : fs.text_chunks_file = none)
    (hm : load_chunk_metadata fs = Except.ok m) : m.chunks = none := by
  rw [load_chunk_metadata, h1] at hm
  rcases fs with ⟨f1, f2, f3⟩
  rcases f2 with _ | (e2 | t2) <;> rcases f3 with _ | (e3 | t3) <;>
    simp only [loadStep] at hm <;> cases hm <;> rfl

/-! ## Claim theorems -/

/-- C1: for every run of the ingestion scheduler in which all launched
tasks settle, the reported counts satisfy scheduled = successful +
failed, where successful is the number of tasks with a success
outcome, failed is the count of failure outcomes and equals the
scheduled - successful value printed by the driver, and the shared
progress counter's final value equals the successful count — for every
concurrency limit C and every completion order. -/
theorem scheduler_conservation (n C : Nat) (outcome : Nat → Bool)
    (s : SchedState) (h : Reachable n C outcome s)
    (hp : s.pending = []) (hr : s.running = []) :
    s.counter = (s.done.filter (fun i => outcome i)).length ∧
    n = (s.done.filter (fun i => outcome i)).length +
        (n - (s.done.filter (fun i => outcome i)).length) ∧
    n - (s.done.filter (fun i => outcome i)).length =
        (s.done.filter (fun i => !outcome i)).length ∧
    (s.done.filter (fun i => outcome i)).length =
        ((List.range n).filter (fun i => outcome i)).length := by
  obtain ⟨hperm, hcnt, _⟩ := schedInv_reachable n C outcome s h
  rw [hp, hr] at hperm
  simp only [List.nil_append] at hperm
  have hlen : s.done.length = n := by simpa using hperm.length_eq
  have hsplit := filter_length_split (fun i => outcome i) s.done
  have hle : (s.done.filter (fun i => outcome i)).length ≤ n := by
    calc (s.done.filter (fun i => outcome i)).length
        ≤ s.done.length := List.length_filter_le _ _
      _ = n := hlen
  refine ⟨hcnt, by omega, by omega, ?_⟩
  exact (hperm.filter (fun i => outcome i)).length_eq

/-- Witness for scheduler_conservation: the one-task run reaching
wFinalState. -/
theorem scheduler_conservation_witness :
    wFinalState.counter = (wFinalState.done.filter (fun i => wOutcome i)).length ∧
    1 = (wFinalState.done.filter (fun i => wOutcome i)).length +
        (1 - (wFinalState.done.filter (fun i => wOutcome i)).length) ∧
    1 - (wFinalState.done.filter (fun i => wOutcome i)).length =
        (wFinalState.done.filter (fun i => !wOutcome i)).length ∧
    (wFinalState.done.filter (fun i => wOutcome i)).length =
        ((List.range 1).filter (fun i => wOutcome i)).length :=
  scheduler_conservation 1 1 wOutcome wFinalState reach_final rfl rfl

/-- C9: at every reachable instant of a batch run, at most C insert
operations hold a semaphore slot, for every batch size and every
pattern of task delays. -/
theorem scheduler_concurrency_bound (n C : Nat) (outcome : Nat → Bool)
    (s : SchedState) (h : Reachable n C outcome s) :
    s.running.length ≤ C :=
  (schedInv_reachable n C outcome s h).2.2

/-- Witness for scheduler_concurrency_bound at the reachable mid state
with one task in flight under limit 1. -/
theorem scheduler_concurrency_bound_witness : wMidState.running.length ≤ 1 :=
  scheduler_concurrency_bound 1 1 wOutcome wMidState reach_mid

/-- C4: an insert exception is caught at the task boundary and becomes
the failed outcome (False, name) with the original error text in the
printed line, never an escaping exception; a batch whose bodies all
raise reports successful = 0 and failed = scheduled. -/
theorem task_failure_contained (e name : String) (k t : Nat)
    (tasks : List (String × Except String Unit))
    (hall : ∀ p ∈ tasks, bodyFailed p.2 = true) :
    process_single_transcript (Except.error e) name k t =
      ((false, name), "[ERROR] ✗ " ++ name ++ ": " ++ e) ∧
    successfulCount (batchOutcomes tasks) = 0 ∧
    failedCount tasks.length (batchOutcomes tasks) = tasks.length := by
  have key : ∀ ts : List (String × Except String Unit),
      (∀ p ∈ ts, bodyFailed p.2 = true) →
      successfulCount (batchOutcomes ts) = 0 := by
    intro ts
    induction ts with
    | nil => intro _; rfl
    | cons p rest ih =>
      intro hts
      have hp := hts p (List.mem_cons_self p rest)
      have hrest := fun q hq => hts q (List.mem_cons_of_mem p hq)
      rcases p with ⟨nm, body⟩
      rcases body with msg | u
      · have hstep : batchOutcomes ((nm, Except.error msg) :: rest) =
            (false, nm) :: batchOutcomes rest := rfl
        rw [hstep]
        have hdrop : successfulCount ((false, nm) :: batchOutcomes rest) =
            successfulCount (batchOutcomes rest) := by
          simp [successfulCount, List.filter_cons]
        rw [hdrop]
        exact ih hrest
      · simp [bodyFailed] at hp
  refine ⟨rfl, key tasks hall, ?_⟩
  show tasks.length - successfulCount (batchOutcomes tasks) = tasks.length
  rw [key tasks hall]
  exact Nat.sub_zero _

/-- Witness for task_failure_contained on the two-task all-failing
batch wFailTasks. -/
theorem task_failure_contained_witness :
    process_single_transcript (Except.error "quota exceeded") "ep1.txt" 0 0 =
      ((false, "ep1.txt"), "[ERROR] ✗ " ++ "ep1.txt" ++ ": " ++ "quota exceeded") ∧
    successfulCount (batchOutcomes wFailTasks) = 0 ∧
    failedCount wFailTasks.length (batchOutcomes wFailTasks) = wFailTasks.length :=
  task_failure_contained "quota exceeded" "ep1.txt" 0 0 wFailTasks (by decide)

/-- C5: the scheduled batch equals the input files whose doc_id is not
in the Processed-Set, in original order, truncated to the first maxN
entries; it is a sublist of the input, and no scheduled file has its
doc_id in the Processed-Set. -/
theorem scheduling_filter_limit (already : List String) (maxN : Nat)
    (allFiles : List String) :
    toProcess already maxN allFiles =
      (allFiles.filter (fun f => !already.contains (docIdOf f))).take maxN ∧
    List.Sublist (toProcess already maxN allFiles) allFiles ∧
    ∀ f ∈ toProcess already maxN allFiles,
      already.contains (docIdOf f) = false := by
  have he : toProcess already maxN allFiles =
      (allFiles.filter (fun f => !already.contains (docIdOf f))).take maxN := by
    unfold toProcess
    rw [filterUnprocessed_eq, limitTranscripts_eq]
  refine ⟨he, ?_, ?_⟩
  · rw [he]
    exact (List.take_sublist _ _).trans (List.filter_sublist _)
  · intro f hf
    rw [he] at hf
    have hf2 := List.mem_of_mem_take hf
    have hf3 := List.of_mem_filter hf2
    simpa using hf3

/-- Witness for scheduling_filter_limit on a four-file listing with
one processed doc and limit two. -/
theorem scheduling_filter_limit_witness :
    toProcess wAlready 2 wAllFiles =
      (wAllFiles.filter (fun f => !wAlready.contains (docIdOf f))).take 2 ∧
    wAlready.contains (docIdOf "ep2") = false :=
  ⟨(scheduling_filter_limit wAlready 2 wAllFiles).1,
   (scheduling_filter_limit wAlready 2 wAllFiles).2.2 "ep2" (by decide)⟩

/-- C8 counterexample: a status table whose only record is marked
failed.  The loader returns its identifier although no record carries
the completed status, refuting the claim that only completed
identifiers are returned. -/
theorem processed_set_loader_ce :
    failedOnlyTable.map (fun p => p.2.status) = ["failed"] ∧
    completedDocIds failedOnlyTable = [] ∧
    get_already_processed_docs (some (Except.ok failedOnlyTable)) =
      ["transcript-ep1"] :=
  ⟨rfl, rfl, rfl⟩

/-- C8 amended: the Processed-Set Loader returns the identifiers of
all records present in the status table, regardless of their recorded
status; an absent or unparseable table yields the empty set. -/
theorem processed_set_loader_keys (tbl : List (String × StatusRecord))
    (e : String) (p : String × StatusRecord) (hp : p ∈ tbl) :
    get_already_processed_docs (some (Except.ok tbl)) = tbl.map Prod.fst ∧
    p.1 ∈ get_already_processed_docs (some (Except.ok tbl)) ∧
    get_already_processed_docs none = [] ∧
    get_already_processed_docs (some (Except.error e)) = [] :=
  ⟨rfl, by exact List.mem_map_of_mem Prod.fst hp, rfl, rfl⟩

/-- Witness for processed_set_loader_keys: even the failed-status
record's identifier is returned. -/
theorem processed_set_loader_keys_witness :
    get_already_processed_docs (some (Except.ok failedOnlyTable)) =
      failedOnlyTable.map Prod.fst ∧
    ("transcript-ep1", ({ status := "failed" } : StatusRecord)).1 ∈
      get_already_processed_docs (some (Except.ok failedOnlyTable)) ∧
    get_already_processed_docs none = [] ∧
    get_already_processed_docs (some (Except.error "bad json")) = [] :=
  processed_set_loader_keys failedOnlyTable "bad json"
    ("transcript-ep1", { status := "failed" }) (by decide)

/-- C2 counterexample: a present but unparseable chunk side-table makes
the loader raise instead of degrading to an empty mapping, refuting
the never-raises claim for the load-then-attribute pipeline. -/
theorem provenance_load_raises_ce :
    load_chunk_metadata malformedFS =
      Except.error "Expecting value: line 1 column 1" := rfl

/-- C2 amended: when every present side-table file parses, the loader
returns normally; an absent chunk table degrades the metadata so that
every passage of every context resolves to the Unknown sentinel with a
null chunk id.  A malformed side-table file, by contrast, raises. -/
theorem provenance_degrades (fs : FileSys)
    (h1 : fileOk fs.text_chunks_file) (h2 : fileOk fs.doc_status_file)
    (h3 : fileOk fs.full_docs_file) :
    (∃ m, load_chunk_metadata fs = Except.ok m) ∧
    (fs.text_chunks_file = none →
      ∀ m, load_chunk_metadata fs = Except.ok m →
        ∀ context ci, ci ∈ extract_chunk_sources context m →
          ci.source = "Unknown" ∧ ci.chunk_id = none) := by
  constructor
  · rcases fs with ⟨f1, f2, f3⟩
    rcases f1 with _ | (e1 | t1) <;> rcases f2 with _ | (e2 | t2) <;>
      rcases f3 with _ | (e3 | t3) <;>
      first
        | exact h1.elim
        | exact h2.elim
        | exact h3.elim
        | exact ⟨_, rfl⟩
  · intro hnone m hm context ci hci
    have hchunks : m.chunks = none := load_chunks_none fs m hnone hm
    have h4 := mem_extract context m ci hci
    have hsrc := congrArg ChunkInfo.source h4
    have hid := congrArg ChunkInfo.chunk_id h4
    constructor
    · rw [hsrc]
      simp [attributeSection, hchunks]
    · rw [hid]
      simp [attributeSection, hchunks]

/-- Witness for provenance_degrades with all three side-table files
absent. -/
theorem provenance_degrades_witness :
    (∃ m, load_chunk_metadata allAbsentFS = Except.ok m) ∧
    (allAbsentFS.text_chunks_file = none →
      ∀ m, load_chunk_metadata allAbsentFS = Except.ok m →
        ∀ context ci, ci ∈ extract_chunk_sources context m →
          ci.source = "Unknown" ∧ ci.chunk_id = none) :=
  provenance_degrades allAbsentFS trivial trivial trivial

/-- C3: every surviving section is assigned the first chunk, in chunk
table iteration order, that satisfies bidirectional substring
containment; with no containment match the passage keeps source
Unknown and a null chunk id. -/
theorem resolver_first_match (context : String) (meta : Metadata)
    (ct : List (String × Option String)) (h : meta.chunks = some ct)
    (ci : ChunkInfo) (hci : ci ∈ extract_chunk_sources context meta) :
    ci.chunk_id = (ct.find? (containsMatch ci.content)).map Prod.fst ∧
    (ct.find? (containsMatch ci.content) = none →
      ci.source = "Unknown" ∧ ci.chunk_id = none) := by
  rcases hf : ct.find? (containsMatch ci.content) with _ | ⟨cid, cdata⟩
  · have h4 := mem_extract context meta ci hci
    have hae := attributeSection_eq ci.content meta ct h
    rw [hf] at hae
    have hci2 : ci = (⟨ci.content, "Unknown", none⟩ : ChunkInfo) := h4.trans hae
    have hid : ci.chunk_id = none := congrArg ChunkInfo.chunk_id hci2
    have hsrc : ci.source = "Unknown" := congrArg ChunkInfo.source hci2
    exact ⟨hid, fun _ => ⟨hsrc, hid⟩⟩
  · have h4 := mem_extract context meta ci hci
    have hae := attributeSection_eq ci.content meta ct h
    rw [hf] at hae
    have hci2 : ci = (⟨ci.content, resolveSource cid meta, some cid⟩ : ChunkInfo) :=
      h4.trans hae
    have hid : ci.chunk_id = some cid := congrArg ChunkInfo.chunk_id hci2
    constructor
    · exact hid
    · intro hcontra
      exact Option.noConfusion hcontra

/-- Witness for resolver_first_match on a one-section context whose
text equals the stored content of chunk c1. -/
theorem resolver_first_match_witness :
    ciW3.chunk_id = (ctW.find? (containsMatch ciW3.content)).map Prod.fst ∧
    (ctW.find? (containsMatch ciW3.content) = none →
      ciW3.source = "Unknown" ∧ ciW3.chunk_id = none) :=
  resolver_first_match secW metaW3 ctW rfl ciW3 (by decide)

/-- C6 counterexample: the first Document-Index document owning c1 has
display name Unknown, yet the pipeline resolves the passage's source
from the Status Index (stem other), refuting the claim that a
Document-Index match fixes the source and keeps the Status Index
unscanned. -/
theorem resolver_doc_index_priority_ce :
    fullDocHasChunk "c1" ("d1", some fdrCE) = true ∧
    fullDocDisplayName ("d1", some fdrCE) = "Unknown" ∧
    metaCE.full_docs = some [("d1", some fdrCE)] ∧
    extract_chunk_sources secW metaCE = [⟨secW, "other", some "c1"⟩] := by
  refine ⟨by decide, rfl, rfl, by decide⟩

/-- C6 amended: the source of a matched chunk is the display name of
the first Document-Index document owning it (file name with doc_id
fallback); the Status Index is scanned exactly when that scan yields
no match or yields the literal display name Unknown, taking the stem
of the recorded file path when non-empty and the doc_id otherwise. -/
theorem resolver_source_resolution (cid : String) (meta : Metadata)
    (fd : List (String × Option FullDocRecord))
    (ds : List (String × Option StatusRecord))
    (h1 : meta.full_docs = some fd) (h2 : meta.doc_status = some ds) :
    resolveSource cid meta =
      (match (fd.find? (fullDocHasChunk cid)).map fullDocDisplayName with
       | some s =>
           if s = "Unknown" then
             ((ds.find? (statusDocHasChunk cid)).map statusDocDisplayName).getD
               "Unknown"
           else s
       | none =>
           ((ds.find? (statusDocHasChunk cid)).map statusDocDisplayName).getD
             "Unknown") ∧
    (∀ context ct2 ci c cd, meta.chunks = some ct2 →
      ci ∈ extract_chunk_sources context meta →
      ct2.find? (containsMatch ci.content) = some (c, cd) →
      ci.source = resolveSource c meta) := by
  constructor
  · have hred : resolveSource cid meta =
        if (scanFullDocs cid fd).getD "Unknown" = "Unknown" then
          (scanDocStatus cid ds).getD "Unknown"
        else (scanFullDocs cid fd).getD "Unknown" := by
      rw [resolveSource, h1, h2]
    rw [hred, scanFullDocs_eq_find, scanDocStatus_eq_find]
    rcases hf : (fd.find? (fullDocHasChunk cid)).map fullDocDisplayName with _ | s
    · simp
    · by_cases hs : s = "Unknown" <;> simp [hs]
  · intro context ct2 ci c cd hmeta hci hfind
    have h4 := mem_extract context meta ci hci
    have hae := attributeSection_eq ci.content meta ct2 hmeta
    rw [hfind] at hae
    have hci2 : ci = (⟨ci.content, resolveSource c meta, some c⟩ : ChunkInfo) :=
      h4.trans hae
    exact congrArg ChunkInfo.source hci2

/-- Witness for resolver_source_resolution with a Document-Index match
carrying an ordinary display name. -/
theorem resolver_source_resolution_witness :
    resolveSource "c1" metaW6 =
      (match (fdW6.find? (fullDocHasChunk "c1")).map fullDocDisplayName with
       | some s =>
           if s = "Unknown" then
             ((([] : List (String × Option StatusRecord)).find?
                 (statusDocHasChunk "c1")).map statusDocDisplayName).getD
               "Unknown"
           else s
       | none =>
           ((([] : List (String × Option StatusRecord)).find?
               (statusDocHasChunk "c1")).map statusDocDisplayName).getD
             "Unknown") ∧
    (∀ context ct2 ci c cd, metaW6.chunks = some ct2 →
      ci ∈ extract_chunk_sources context metaW6 →
      ct2.find? (containsMatch ci.content) = some (c, cd) →
      ci.source = resolveSource c metaW6) :=
  resolver_source_resolution "c1" metaW6 fdW6 [] rfl rfl

/-- C7: grouping by resolved source keeps the first-occurrence order
of sources, each group holds exactly the passages resolved to its
source, and passages with sources A, B, A group as A with two passages
before B with one. -/
theorem grouping_first_occurrence (ps : List ChunkInfo) (s : String) :
    (groupBySource ps).map Prod.fst =
      firstOccurrences (ps.map (fun c => c.source)) ∧
    findGroup (groupBySource ps) s = ps.filter (fun c => c.source == s) ∧
    groupBySource [psA1, psB1, psA2] = [("A", [psA1, psA2]), ("B", [psB1])] := by
  refine ⟨?_, ?_, by decide⟩
  · unfold groupBySource firstOccurrences
    simpa using groupKeys_fold ps []
  · unfold groupBySource
    simpa [findGroup] using findGroup_fold ps [] s

/-- C10: a surviving section whose first containment match is a chunk
recorded by no Document-Index document and no Status-Index document
yields a passage carrying that chunk id together with the Unknown
source sentinel. -/
theorem resolver_orphan_chunk (context : String) (meta : Metadata)
    (ct : List (String × Option String)) (ci : ChunkInfo)
    (cid : String) (cdata : Option String)
    (h : meta.chunks = some ct)
    (hci : ci ∈ extract_chunk_sources context meta)
    (hfind : ct.find? (containsMatch ci.content) = some (cid, cdata))
    (h1 : noFullDocContains cid meta) (h2 : noStatusDocContains cid meta) :
    ci.chunk_id = some cid ∧ ci.source = "Unknown" := by
  have h4 := mem_extract context meta ci hci
  have hae := attributeSection_eq ci.content meta ct h
  rw [hfind] at hae
  have hci2 : ci = (⟨ci.content, resolveSource cid meta, some cid⟩ : ChunkInfo) :=
    h4.trans hae
  have hid : ci.chunk_id = some cid := congrArg ChunkInfo.chunk_id hci2
  have hsrc : ci.source = resolveSource cid meta := congrArg ChunkInfo.source hci2
  refine ⟨hid, ?_⟩
  rw [hsrc]
  exact resolveSource_unknown cid meta h1 h2

/-- Witness for resolver_orphan_chunk: chunk c9 matches the section
but is recorded by no document of either side-table. -/
theorem resolver_orphan_chunk_witness :
    ciO.chunk_id = some "c9" ∧ ciO.source = "Unknown" :=
  resolver_orphan_chunk secW metaO ctO ciO "c9" (some secW) rfl (by decide)
    (by decide)
    (show ∀ p ∈ metaO.full_docs.getD [], fullDocHasChunk "c9" p = false by decide)
    (show ∀ p ∈ metaO.doc_status.getD [], statusDocHasChunk "c9" p = false by decide)

end LennyRag
